import Mathlib

/-!
Shallow embedding of the numeric conversion utilities of this repository
(`fromTokenMinimalUnit`, `toTokenMinimalUnit`, `isDecimal`, `weiToFiat`,
`weiToFiatNumber`, `balanceToFiat`, `balanceToFiatNumber`) and of the
settings reducer.

Arbitrary-precision `BN` values are embedded as `Int`/`Nat`.  JavaScript
strings are embedded as `String` (whose character list is manipulated
directly): the decimal-string handling of the source — left padding of the
fractional remainder, the trailing-zero-trimming regex
`^([0-9]*[1-9]|0)(0*)`, the split on the decimal point, the numeric-string
regex `^-?[0-9.]+$` of `ethjs-unit`'s `numberToString` — is reproduced over
`List Char` / digit lists.  The base `toBN(Math.pow(10, decimals).toString())`
of both conversions is embedded by `bnBase`: for `decimals ≤ 20` the double
`Math.pow(10, decimals)` and its fixed-notation rendering are the exact
numeral `1` followed by `decimals` zeros, so the base is `10 ^ decimals`;
at 21 and 22 the double is still exact but `Number.prototype.toString`
switches to exponential notation (`"1e+21"`, `"1e+22"`), which bn.js's
unvalidated base-10 parser misreads as `23521` / `23522`; from
`decimals ≥ 23` on, `Math.pow` lands on an inexact double whose
shortest-round-trip rendering is floating-point behaviour this embedding
does not model, so every theorem quantifying over amounts is bounded by
`decimals ≤ 22` (or `decimals ≤ 20` where the exact power is asserted).

The `minimal.mul(negative)` / `tokenMinimal.mul(negative)` lines of the
source pass the boolean `true` to `bn.js`'s `BN.prototype.mul`, which
evaluates `new Array(this.length + undefined)` and therefore throws a
`RangeError` ("Invalid array length"): the embedding models the negative
branch of both conversions as `JsErr.rangeError`.
-/

namespace NumberUtils

/-- Decimal digits of `n`, most significant first, as produced by
`BN.toString(10)` for a positive value; `[]` for `0`.  The first argument is
fuel and is always supplied with `fuel ≥ n`. -/
def natDigitsAux : Nat → Nat → List Nat
  | 0, _ => []
  | fuel + 1, n => if n = 0 then [] else natDigitsAux fuel (n / 10) ++ [n % 10]

/-- Decimal digit list of `n` as produced by `BN.toString(10)` (`[0]` for
zero). -/
def natDigits (n : Nat) : List Nat :=
  if n = 0 then [0] else natDigitsAux n n

/-- Numeric value of a most-significant-first digit list, as computed by
`new BN(digitString, 10)`. -/
def digitsVal (l : List Nat) : Nat :=
  l.foldl (fun acc d => 10 * acc + d) 0

theorem digitsVal_append_one (l : List Nat) (d : Nat) :
    digitsVal (l ++ [d]) = 10 * digitsVal l + d := by
  simp [digitsVal, List.foldl_append]

theorem natDigitsAux_sound : ∀ (fuel n : Nat), n ≤ fuel → digitsVal (natDigitsAux fuel n) = n
  | 0, n, h => by
      have hn : n = 0 := Nat.le_zero.mp h
      simp [natDigitsAux, digitsVal, hn]
  | fuel + 1, n, h => by
      by_cases hn : n = 0
      · simp [natDigitsAux, hn, digitsVal]
      · have hdiv : n / 10 ≤ fuel := by omega
        rw [natDigitsAux, if_neg hn, digitsVal_append_one,
          natDigitsAux_sound fuel (n / 10) hdiv]
        omega

theorem natDigitsAux_lt : ∀ (fuel n : Nat), ∀ x ∈ natDigitsAux fuel n, x < 10
  | 0, _, x, hx => by simp [natDigitsAux] at hx
  | fuel + 1, n, x, hx => by
      by_cases hn : n = 0
      · simp [natDigitsAux, hn] at hx
      · rw [natDigitsAux, if_neg hn] at hx
        rcases List.mem_append.mp hx with hx | hx
        · exact natDigitsAux_lt fuel (n / 10) x hx
        · have : x = n % 10 := by simpa using hx
          omega

theorem natDigitsAux_length : ∀ (fuel n k : Nat), n < 10 ^ k → (natDigitsAux fuel n).length ≤ k
  | 0, n, k, _ => by simp [natDigitsAux]
  | fuel + 1, n, k, h => by
      by_cases hn : n = 0
      · simp [natDigitsAux, hn]
      · have hk : k ≠ 0 := by
          rintro rfl
          simp only [pow_zero] at h
          omega
        obtain ⟨j, rfl⟩ : ∃ j, k = j + 1 := ⟨k - 1, by omega⟩
        have hdiv : n / 10 < 10 ^ j := by
          rw [Nat.div_lt_iff_lt_mul (by norm_num)]
          calc n < 10 ^ (j + 1) := h
          _ = 10 ^ j * 10 := by ring
        have hlen := natDigitsAux_length fuel (n / 10) j hdiv
        rw [natDigitsAux, if_neg hn]
        simp only [List.length_append, List.length_cons, List.length_nil]
        omega

theorem digitsVal_natDigits (n : Nat) : digitsVal (natDigits n) = n := by
  by_cases hn : n = 0
  · simp [natDigits, hn, digitsVal]
  · simp [natDigits, hn, natDigitsAux_sound n n le_rfl]

theorem natDigits_ne_nil (n : Nat) : natDigits n ≠ [] := by
  by_cases hn : n = 0
  · simp [natDigits, hn]
  · simp only [natDigits, hn, if_false]
    obtain ⟨fuel, hf⟩ : ∃ f, n = f + 1 := ⟨n - 1, by omega⟩
    conv_lhs => rw [hf]
    simp [natDigitsAux]

theorem natDigits_lt (n : Nat) : ∀ x ∈ natDigits n, x < 10 := by
  by_cases hn : n = 0
  · intro x hx
    simp [natDigits, hn] at hx
    omega
  · simp only [natDigits, hn, if_false]
    exact natDigitsAux_lt n n

theorem natDigits_length_le (n k : Nat) (hk : 1 ≤ k) (h : n < 10 ^ k) :
    (natDigits n).length ≤ k := by
  by_cases hn : n = 0
  · rw [hn]
    simp [natDigits]
    omega
  · simp only [natDigits, hn, if_false]
    exact natDigitsAux_length n n k h

theorem digitsVal_replicate_zero_append (k : Nat) (l : List Nat) :
    digitsVal (List.replicate k 0 ++ l) = digitsVal l := by
  induction k with
  | zero => simp
  | succ k ih =>
      rw [List.replicate_succ, List.cons_append]
      simpa [digitsVal] using ih

theorem digitsVal_append_replicate_zero (l : List Nat) (k : Nat) :
    digitsVal (l ++ List.replicate k 0) = digitsVal l * 10 ^ k := by
  induction k generalizing l with
  | zero => simp
  | succ k ih =>
      have h1 : l ++ List.replicate (k + 1) 0 = (l ++ [0]) ++ List.replicate k 0 := by
        simp [List.replicate_succ]
      rw [h1, ih, digitsVal_append_one]
      ring

theorem digitsVal_eq_zero_of_all_zero : ∀ {l : List Nat}, (∀ x ∈ l, x = 0) → digitsVal l = 0
  | [], _ => rfl
  | a :: t, h => by
      have ha : a = 0 := h a (by simp)
      have ht : ∀ x ∈ t, x = 0 := fun x hx => h x (by simp [hx])
      simpa [digitsVal, ha] using digitsVal_eq_zero_of_all_zero ht

/-- Trailing zeros of a digit list removed, mirroring what group 1 of the
source regex `^([0-9]*[1-9]|0)(0*)` keeps of a digit string that contains a
non-zero digit (the longest prefix ending in a non-zero digit). -/
def dropTrailingZeros (l : List Nat) : List Nat :=
  (l.reverse.dropWhile (fun x => x == 0)).reverse

theorem dropTrailingZeros_spec (l : List Nat) :
    ∃ k, l = dropTrailingZeros l ++ List.replicate k 0 := by
  refine ⟨(l.reverse.takeWhile (fun x => x == 0)).length, ?_⟩
  have h1 : l.reverse.takeWhile (fun x => x == 0) ++ l.reverse.dropWhile (fun x => x == 0) =
      l.reverse := List.takeWhile_append_dropWhile (fun x => x == 0) l.reverse
  have h2 : ∀ b ∈ l.reverse.takeWhile (fun x => x == 0), b = 0 := by
    intro b hb
    simpa using List.mem_takeWhile_imp hb
  have h3 : l.reverse.takeWhile (fun x => x == 0) =
      List.replicate (l.reverse.takeWhile (fun x => x == 0)).length 0 :=
    List.eq_replicate_of_mem h2
  have h4 := congrArg List.reverse h1
  rw [List.reverse_append, List.reverse_reverse] at h4
  rw [dropTrailingZeros]
  conv_lhs => rw [← h4]
  congr 1
  conv_lhs => rw [h3, List.reverse_replicate]

theorem dropWhile_head_false {α : Type} (p : α → Bool) :
    ∀ (l : List α) (a : α) (t : List α), l.dropWhile p = a :: t → p a = false
  | [], a, t, h => by simp [List.dropWhile] at h
  | b :: r, a, t, h => by
      by_cases hb : p b = true
      · rw [List.dropWhile_cons_of_pos hb] at h
        exact dropWhile_head_false p r a t h
      · rw [List.dropWhile_cons_of_neg hb] at h
        cases h
        simpa using hb

theorem dropTrailingZeros_last_ne_zero (l : List Nat) (h : dropTrailingZeros l ≠ []) :
    ∃ t d, dropTrailingZeros l = t ++ [d] ∧ d ≠ 0 := by
  rw [dropTrailingZeros] at h ⊢
  cases hdw : l.reverse.dropWhile (fun x => x == 0) with
  | nil => rw [hdw] at h; simp at h
  | cons d t =>
      have hd := dropWhile_head_false (fun x => x == 0) l.reverse d t hdw
      refine ⟨t.reverse, d, ?_, ?_⟩
      · rw [List.reverse_cons]
      · simpa using hd

theorem dropTrailingZeros_eq_nil {l : List Nat} (h : ∀ x ∈ l, x = 0) :
    dropTrailingZeros l = [] := by
  rw [dropTrailingZeros]
  have hdw : l.reverse.dropWhile (fun x => x == 0) = [] := by
    rw [List.dropWhile_eq_nil_iff]
    intro x hx
    simp [h x (List.mem_reverse.mp hx)]
  simp [hdw]

theorem all_zero_of_dropTrailingZeros_eq_nil {l : List Nat} (h : dropTrailingZeros l = []) :
    ∀ x ∈ l, x = 0 := by
  rw [dropTrailingZeros, List.reverse_eq_nil_iff, List.dropWhile_eq_nil_iff] at h
  intro x hx
  simpa using h x (List.mem_reverse.mpr hx)

/-- Result of `fraction.match(/^([0-9]*[1-9]|0)(0*)/)[1]` on a (non-empty)
digit string: the longest prefix ending in a non-zero digit, or `"0"` when
every digit is zero. -/
def trimFraction (l : List Nat) : List Nat :=
  if dropTrailingZeros l = [] then [0] else dropTrailingZeros l

/-- Character of a single decimal digit, as emitted by `BN.toString(10)`. -/
def digitChar (d : Nat) : Char := Char.ofNat (48 + d)

/-- Digit value of a decimal digit character, as consumed by
`new BN(string)`. -/
def charToDigit (c : Char) : Nat := c.toNat - 48

theorem charToDigit_digitChar {d : Nat} (h : d < 10) : charToDigit (digitChar d) = d := by
  interval_cases d <;> rfl

theorem digitChar_isDigit {d : Nat} (h : d < 10) : (digitChar d).isDigit = true := by
  interval_cases d <;> decide

theorem isDigit_ne_dot {c : Char} (h : c.isDigit = true) : c ≠ '.' := by
  rintro rfl
  exact absurd h (by decide)

theorem isDigit_ne_dash {c : Char} (h : c.isDigit = true) : c ≠ '-' := by
  rintro rfl
  exact absurd h (by decide)

theorem map_charToDigit_map_digitChar : ∀ {l : List Nat}, (∀ x ∈ l, x < 10) →
    (l.map digitChar).map charToDigit = l
  | [], _ => rfl
  | a :: t, h => by
      have ha := charToDigit_digitChar (h a (by simp))
      have ht := map_charToDigit_map_digitChar (fun x hx => h x (List.mem_cons_of_mem a hx))
      simp only [List.map_cons, ha, ht]

/-- JavaScript `String.prototype.split('.')`. -/
def splitOnDot : List Char → List (List Char)
  | [] => [[]]
  | c :: rest =>
      if c = '.' then [] :: splitOnDot rest
      else
        match splitOnDot rest with
        | [] => [[c]]
        | h :: t => (c :: h) :: t

theorem splitOnDot_no_dot : ∀ (l : List Char), (∀ c ∈ l, c ≠ '.') → splitOnDot l = [l]
  | [], _ => rfl
  | c :: rest, h => by
      have hc : c ≠ '.' := h c (by simp)
      have hr := splitOnDot_no_dot rest (fun x hx => h x (by simp [hx]))
      simp [splitOnDot, hc, hr]

theorem splitOnDot_dot_append (w f : List Char) (hw : ∀ c ∈ w, c ≠ '.') :
    splitOnDot (w ++ '.' :: f) = w :: splitOnDot f := by
  induction w with
  | nil => simp [splitOnDot]
  | cons c rest ih =>
      have hc : c ≠ '.' := hw c (by simp)
      have ih2 := ih (fun x hx => hw x (by simp [hx]))
      simp [splitOnDot, hc, ih2]

/-- One character of the character class `[0-9.]`. -/
def isDigitOrDot (c : Char) : Bool := c == '.' || c.isDigit

/-- The regex `^-?[0-9.]+$` that `ethjs-unit`'s `numberToString` applies to
a string argument before returning it. -/
def matchesNumeric (l : List Char) : Bool :=
  let core := if l.head? = some '-' then l.tail else l
  !core.isEmpty && core.all isDigitOrDot

/-- bn.js `parseBase` value of one character in base 10 (no validation):
the char code minus 48, remapped through the `a`–`f` (≥ 49) and `A`–`F`
(≥ 17) ranges; a digit is itself, `'e'` yields `14`, `'+'` yields `-5`. -/
def bnCharVal (c : Char) : Int :=
  let v : Int := (c.toNat : Int) - 48
  if 49 ≤ v then v - 49 + 10
  else if 17 ≤ v then v - 17 + 10
  else v

/-- `new BN(s, 10)` on the sign-free strings this code builds: bn.js
chunks the characters into limbs, but with exact arithmetic the chunked
accumulation equals the plain left fold `acc * 10 + value(char)`; on the
exponential rendering `"1e+21"` this accumulates the garbage value
`23521`. -/
def bnParseBase10 (s : List Char) : Int :=
  s.foldl (fun acc c => 10 * acc + bnCharVal c) 0

/-- The string `Math.pow(10, decimals).toString()`: the exact decimal
numeral below `1e21`; the exponential rendering `1e+<decimals>` from
`1e21` on — exactly right at 21 and 22 (whose doubles are still exact),
and only a representative for `decimals ≥ 23`, where the double is
inexact and outside this embedding's faithful domain. -/
def jsPowTenString (decimals : Nat) : List Char :=
  if decimals ≤ 20 then '1' :: List.replicate decimals '0'
  else '1' :: 'e' :: '+' :: (natDigits decimals).map digitChar

/-- The `BN` base `toBN(Math.pow(10, decimals).toString())` of source
lines 39 and 65, as a natural number (the parse is non-negative on every
rendering in play: `10 ^ decimals` for `decimals ≤ 20`, `23521` at 21,
`23522` at 22). -/
def bnBase (decimals : Nat) : Nat :=
  (bnParseBase10 (jsPowTenString decimals)).toNat

theorem bnParse_zeros (k : Nat) : ∀ acc : Int,
    List.foldl (fun acc c => 10 * acc + bnCharVal c) acc (List.replicate k '0') =
      acc * 10 ^ k := by
  induction k with
  | zero => intro acc; simp
  | succ k ih =>
      intro acc
      rw [List.replicate_succ, List.foldl_cons, ih]
      have h0 : bnCharVal '0' = 0 := by decide
      rw [h0]
      ring

theorem bnBase_pow (d : Nat) (hd : d ≤ 20) : bnBase d = 10 ^ d := by
  rw [bnBase, jsPowTenString, if_pos hd, bnParseBase10, List.foldl_cons]
  have h1 : (10 * 0 + bnCharVal '1' : Int) = 1 := by decide
  rw [h1, bnParse_zeros d 1, one_mul]
  have h2 : ((10 : Int) ^ d) = ((10 ^ d : Nat) : Int) := by push_cast; ring
  rw [h2, Int.toNat_natCast]

theorem bnBase_21 : bnBase 21 = 23521 := by decide

theorem bnBase_22 : bnBase 22 = 23522 := by decide

theorem bnBase_bounds (d : Nat) (hd : d ≤ 22) : 1 ≤ bnBase d ∧ bnBase d ≤ 10 ^ d := by
  by_cases h20 : d ≤ 20
  · rw [bnBase_pow d h20]
    exact ⟨Nat.pos_pow_of_pos d (by norm_num), le_rfl⟩
  · have hcase : d = 21 ∨ d = 22 := by omega
    rcases hcase with rfl | rfl
    · rw [bnBase_21]
      exact ⟨by norm_num, by norm_num⟩
    · rw [bnBase_22]
      exact ⟨by norm_num, by norm_num⟩

/-- The ways the conversion code can throw: the error of `number-to-bn` /
`ethjs-unit`'s `numberToString` for an unparsable value, the three
numeral-parsing errors of `toTokenMinimalUnit`, the `TypeError` thrown on a
property access of `null`, and the `RangeError` that `bn.js` raises when
`BN.prototype.mul` receives the boolean `true` (its `new Array(this.length
+ num.length)` computes `new Array(NaN)`). -/
inductive JsErr : Type
  | invalidNumberValue
  | invalidNumber
  | tooManyDecimalPoints
  | tooManyDecimalPlaces
  | typeError
  | rangeError
  deriving DecidableEq, Repr

instance {ε α : Type} [DecidableEq ε] [DecidableEq α] : DecidableEq (Except ε α) := fun x y =>
  match x, y with
  | .error a, .error b =>
      if h : a = b then .isTrue (by rw [h]) else .isFalse (fun hh => h (Except.error.inj hh))
  | .ok a, .ok b =>
      if h : a = b then .isTrue (by rw [h]) else .isFalse (fun hh => h (Except.ok.inj hh))
  | .error _, .ok _ => .isFalse (fun hh => Except.noConfusion hh)
  | .ok _, .error _ => .isFalse (fun hh => Except.noConfusion hh)

/-- Source `fromTokenMinimalUnit(minimalInput, decimals)` (lines 36–55):
converts a base-unit integer amount (a `BN`, embedded as `Int`) to its
decimal string.  For a negative amount the source reaches
`minimal.mul(negative)` with the boolean `true`, which throws a
`RangeError` inside `bn.js`; the non-negative path computes
`base = toBN(Math.pow(10, decimals).toString())` (see `bnBase`),
`whole = minimal div base`, the `decimals`-digit left-zero-padded
remainder, trims its trailing zeros with the regex, and omits the fraction
when the trimmed fraction is exactly `"0"`. -/
def fromTokenMinimalUnit (minimalInput : Int) (decimals : Nat) : Except JsErr String :=
  if minimalInput < 0 then Except.error JsErr.rangeError
  else
    let base := bnBase decimals
    let m := minimalInput.toNat
    let fraction0 := natDigits (m % base)
    let fraction1 := List.replicate (decimals - fraction0.length) 0 ++ fraction0
    let fraction2 := trimFraction fraction1
    let whole := natDigits (m / base)
    let chars := whole.map digitChar ++
      (if fraction2 = [0] then [] else '.' :: fraction2.map digitChar)
    Except.ok (String.mk chars)

/-- Source `toTokenMinimalUnit(tokenValue, decimals)` (lines 64–104) on a
string argument: `convert.numberToString` validates it against
`^-?[0-9.]+$`, the sign is stripped, a lone `"."` is rejected, the value is
split on `'.'`, more than one decimal point is rejected, empty whole and
absent/empty fraction default to `"0"`, a fraction longer than `decimals`
is rejected, the fraction is right-padded, and the amount is
`whole * base + fraction` with `base = toBN(Math.pow(10,
decimals).toString())` (see `bnBase`); a negative input then reaches
`tokenMinimal.mul(negative)` with the boolean `true`, which throws a
`RangeError` inside `bn.js`. -/
def toTokenMinimalUnit (tokenValue : String) (decimals : Nat) : Except JsErr Int :=
  let s := tokenValue.data
  if matchesNumeric s = true then
    let value := if s.head? = some '-' then s.tail else s
    if value = ['.'] then Except.error JsErr.invalidNumber
    else
      let comps := splitOnDot value
      if 2 < comps.length then Except.error JsErr.tooManyDecimalPoints
      else
        let whole0 := comps.headD []
        let fraction0 := comps.getD 1 []
        let whole := if whole0 = [] then ['0'] else whole0
        let fraction := if fraction0 = [] then ['0'] else fraction0
        if decimals < fraction.length then Except.error JsErr.tooManyDecimalPlaces
        else
          let fractionPadded := fraction ++ List.replicate (decimals - fraction.length) '0'
          let tokenMinimal := digitsVal (whole.map charToDigit) * bnBase decimals +
            digitsVal (fractionPadded.map charToDigit)
          if s.head? = some '-' then Except.error JsErr.rangeError
          else Except.ok (tokenMinimal : Int)
  else Except.error JsErr.invalidNumberValue


theorem fromTokenMinimalUnit_eval (a d : Nat) :
    fromTokenMinimalUnit (a : Int) d =
      Except.ok (String.mk ((natDigits (a / bnBase d)).map digitChar ++
        (if trimFraction (List.replicate (d - (natDigits (a % bnBase d)).length) 0 ++
            natDigits (a % bnBase d)) = [0] then []
          else '.' :: (trimFraction (List.replicate (d - (natDigits (a % bnBase d)).length) 0 ++
            natDigits (a % bnBase d))).map digitChar))) := by
  unfold fromTokenMinimalUnit
  rw [if_neg (not_lt.mpr (Int.natCast_nonneg a)), Int.toNat_natCast]

theorem trimFraction_zero (d : Nat) :
    trimFraction (List.replicate (d - (natDigits 0).length) 0 ++ natDigits 0) = [0] := by
  have hall : ∀ x ∈ List.replicate (d - (natDigits 0).length) 0 ++ natDigits 0, x = 0 := by
    intro x hx
    rcases List.mem_append.mp hx with hx | hx
    · exact List.eq_of_mem_replicate hx
    · simpa [natDigits] using hx
  rw [trimFraction, if_pos (dropTrailingZeros_eq_nil hall)]

theorem trimFraction_of_rem_pos (r d : Nat) (hr : r ≠ 0) (hrlt : r < 10 ^ d) :
    ∃ T : List Nat,
      trimFraction (List.replicate (d - (natDigits r).length) 0 ++
        natDigits r) = T ∧
      T ≠ [0] ∧ T ≠ [] ∧ T.getLast? ≠ some 0 ∧ (∀ x ∈ T, x < 10) ∧ T.length ≤ d ∧
      T ++ List.replicate (d - T.length) 0 =
        List.replicate (d - (natDigits r).length) 0 ++ natDigits r ∧
      digitsVal T * 10 ^ (d - T.length) = r := by
  have hd1 : 1 ≤ d := by
    rcases Nat.eq_zero_or_pos d with h | h
    · subst h
      simp only [pow_zero] at hrlt
      omega
    · omega
  have hlen0 : (natDigits r).length ≤ d := natDigits_length_le _ d hd1 hrlt
  have hFlen : (List.replicate (d - (natDigits r).length) 0 ++
      natDigits r).length = d := by
    simp only [List.length_append, List.length_replicate]
    omega
  have hFdigits : ∀ x ∈ List.replicate (d - (natDigits r).length) 0 ++
      natDigits r, x < 10 := by
    intro x hx
    rcases List.mem_append.mp hx with hx | hx
    · have := List.eq_of_mem_replicate hx
      omega
    · exact natDigits_lt _ x hx
  have hFval : digitsVal (List.replicate (d - (natDigits r).length) 0 ++
      natDigits r) = r := by
    rw [digitsVal_replicate_zero_append, digitsVal_natDigits]
  obtain ⟨k, hk⟩ := dropTrailingZeros_spec (List.replicate (d - (natDigits r).length) 0 ++
    natDigits r)
  have hTne : dropTrailingZeros (List.replicate (d - (natDigits r).length) 0 ++
      natDigits r) ≠ [] := by
    intro hnil
    have hall := all_zero_of_dropTrailingZeros_eq_nil hnil
    exact hr (hFval ▸ digitsVal_eq_zero_of_all_zero hall)
  obtain ⟨t, dd, hT, hdd⟩ := dropTrailingZeros_last_ne_zero _ hTne
  refine ⟨_, by rw [trimFraction, if_neg hTne], ?_, hTne, ?_, ?_, ?_, ?_, ?_⟩
  · intro hcon
    rw [hcon] at hT
    have : dd = 0 := by
      have := congrArg List.getLast? hT
      rw [List.getLast?_concat] at this
      simpa using this.symm
    exact hdd this
  · rw [hT, List.getLast?_concat]
    simpa using hdd
  · intro x hx
    apply hFdigits
    rw [hk]
    exact List.mem_append_left _ hx
  · have := congrArg List.length hk
    simp only [List.length_append, List.length_replicate, hFlen] at this
    omega
  · have hklen : k = d - (dropTrailingZeros (List.replicate
        (d - (natDigits r).length) 0 ++ natDigits r)).length := by
      have := congrArg List.length hk
      simp only [List.length_append, List.length_replicate, hFlen] at this
      omega
    rw [← hklen, ← hk]
  · have hklen : k = d - (dropTrailingZeros (List.replicate
        (d - (natDigits r).length) 0 ++ natDigits r)).length := by
      have := congrArg List.length hk
      simp only [List.length_append, List.length_replicate, hFlen] at this
      omega
    rw [← hklen, ← digitsVal_append_replicate_zero, ← hk, hFval]

theorem toTokenMinimalUnit_digits (W : List Char) (hW : W ≠ [])
    (hWd : ∀ c ∈ W, c.isDigit = true) (d : Nat) (hd : 1 ≤ d) :
    toTokenMinimalUnit (String.mk W) d =
      Except.ok ((digitsVal (W.map charToDigit) * bnBase d : Nat) : Int) := by
  obtain ⟨w, W', rfl⟩ := List.exists_cons_of_ne_nil hW
  have hwdig : w.isDigit = true := hWd w (by simp)
  have hdash : ¬ ((w :: W').head? = some '-') := by
    intro hcon
    exact isDigit_ne_dash hwdig (by simpa using hcon)
  have hmatch : matchesNumeric (w :: W') = true := by
    rw [matchesNumeric]
    simp only [if_neg hdash]
    refine (Bool.and_eq_true _ _).mpr ⟨by simp, ?_⟩
    rw [List.all_eq_true]
    intro c hc
    have hcd := hWd c hc
    simp [isDigitOrDot, hcd]
  have hnodot : ∀ c ∈ w :: W', c ≠ '.' := fun c hc => isDigit_ne_dot (hWd c hc)
  have hsplit : splitOnDot (w :: W') = [w :: W'] := splitOnDot_no_dot _ hnodot
  have hnedot : ¬ (w :: W' = ['.']) := by
    intro hcon
    have hw' : w = '.' := (List.cons.injEq _ _ _ _).mp hcon |>.1
    exact isDigit_ne_dot hwdig hw'
  have hfrac0 : digitsVal ((['0'] ++ List.replicate (d - 1) '0').map charToDigit) = 0 := by
    apply digitsVal_eq_zero_of_all_zero
    intro x hx
    simp only [List.map_append, List.map_cons, List.map_nil, List.map_replicate] at hx
    rcases List.mem_append.mp hx with hx | hx
    · simpa [charToDigit] using hx
    · have := List.eq_of_mem_replicate hx
      simpa [charToDigit] using this
  simp only [toTokenMinimalUnit]
  rw [if_pos hmatch, if_neg hdash, if_neg hnedot, hsplit]
  rw [if_neg (by simp : ¬ (2 < ([w :: W'] : List (List Char)).length))]
  simp only [List.headD_cons, List.getD_eq_getElem?_getD]
  rw [if_neg (by simp : ¬ (w :: W' = []))]
  rw [if_pos (by simp : (([w :: W'] : List (List Char))[1]?).getD [] = [])]
  rw [if_neg (by simp; omega : ¬ (d < (['0'] : List Char).length))]
  rw [if_neg hdash]
  rw [show (['0'] : List Char).length = 1 from rfl]
  rw [hfrac0, Nat.add_zero]

theorem toTokenMinimalUnit_digits_dot (W F : List Char) (hW : W ≠ []) (hF : F ≠ [])
    (hWd : ∀ c ∈ W, c.isDigit = true) (hFd : ∀ c ∈ F, c.isDigit = true)
    (d : Nat) (hlen : F.length ≤ d) :
    toTokenMinimalUnit (String.mk (W ++ '.' :: F)) d =
      Except.ok ((digitsVal (W.map charToDigit) * bnBase d +
        digitsVal ((F ++ List.replicate (d - F.length) '0').map charToDigit) : Nat) : Int) := by
  obtain ⟨w, W', rfl⟩ := List.exists_cons_of_ne_nil hW
  have hwdig : w.isDigit = true := hWd w (by simp)
  have hdash : ¬ (((w :: W') ++ '.' :: F).head? = some '-') := by
    intro hcon
    exact isDigit_ne_dash hwdig (by simpa using hcon)
  have hmatch : matchesNumeric ((w :: W') ++ '.' :: F) = true := by
    rw [matchesNumeric]
    simp only [if_neg hdash]
    refine (Bool.and_eq_true _ _).mpr ⟨by simp, ?_⟩
    rw [List.all_eq_true]
    intro c hc
    rcases List.mem_append.mp hc with hc | hc
    · have hcd := hWd c hc
      simp [isDigitOrDot, hcd]
    · rcases List.mem_cons.mp hc with hc | hc
      · simp [isDigitOrDot, hc]
      · have hcd := hFd c hc
        simp [isDigitOrDot, hcd]
  have hnedot : ¬ ((w :: W') ++ '.' :: F = ['.']) := by
    intro hcon
    rw [List.cons_append] at hcon
    have hw' : w = '.' := (List.cons.injEq _ _ _ _).mp hcon |>.1
    exact isDigit_ne_dot hwdig hw'
  have hsplit : splitOnDot ((w :: W') ++ '.' :: F) = [w :: W', F] := by
    rw [splitOnDot_dot_append _ _ (fun c hc => isDigit_ne_dot (hWd c hc)),
      splitOnDot_no_dot F (fun c hc => isDigit_ne_dot (hFd c hc))]
  simp only [toTokenMinimalUnit]
  rw [if_pos hmatch, if_neg hdash, if_neg hnedot, hsplit]
  rw [if_neg (by simp : ¬ (2 < ([w :: W', F] : List (List Char)).length))]
  simp only [List.headD_cons, List.getD_eq_getElem?_getD]
  rw [if_neg (by simp : ¬ (w :: W' = []))]
  rw [show (([w :: W', F] : List (List Char))[1]?).getD [] = F from rfl]
  rw [if_neg hF, if_neg (not_lt.mpr hlen), if_neg hdash]

/-- C1 (amended): for every non-negative integer amount `a` and every
decimal count `d` with `1 ≤ d ≤ 22` — the whole domain on which the
source's base `toBN(Math.pow(10, decimals).toString())` is modelable:
the exact power `10 ^ d` for `d ≤ 20`, and the misparsed bases
`23521` / `23522` at `d = 21` / `22`, which both conversion directions
share — converting a base-unit amount to its decimal string with
`fromTokenMinimalUnit` and back with `toTokenMinimalUnit` reproduces `a`
exactly.  (At `d = 0` the conversion back always rejects — see the
counterexample theorem; for `d ≥ 23` the base rendering is inexact float
behaviour outside the embedding.) -/
theorem fromToken_toToken_roundTrip (a d : Nat) (hd : 1 ≤ d) (hd22 : d ≤ 22) :
    (fromTokenMinimalUnit (a : Int) d).bind (fun s => toTokenMinimalUnit s d) =
      Except.ok (a : Int) := by
  obtain ⟨hb1, hb2⟩ := bnBase_bounds d hd22
  rw [fromTokenMinimalUnit_eval]
  have hWne : (natDigits (a / bnBase d)).map digitChar ≠ [] := by
    simp [natDigits_ne_nil]
  have hWd : ∀ c ∈ (natDigits (a / bnBase d)).map digitChar, c.isDigit = true := by
    intro c hc
    obtain ⟨x, hx, rfl⟩ := List.mem_map.mp hc
    exact digitChar_isDigit (natDigits_lt _ x hx)
  have hWval : digitsVal (((natDigits (a / bnBase d)).map digitChar).map charToDigit) =
      a / bnBase d := by
    rw [map_charToDigit_map_digitChar (natDigits_lt _), digitsVal_natDigits]
  by_cases hr : a % bnBase d = 0
  · rw [hr, trimFraction_zero, if_pos rfl, List.append_nil]
    show toTokenMinimalUnit _ d = _
    rw [toTokenMinimalUnit_digits _ hWne hWd d hd, hWval]
    rw [Nat.div_mul_cancel (Nat.dvd_of_mod_eq_zero hr)]
  · have hrlt : a % bnBase d < 10 ^ d :=
      lt_of_lt_of_le (Nat.mod_lt a (by omega)) hb2
    obtain ⟨T, hTeq, hT0, hTne, hTlast, hTlt, hTlen, hTpad, hTval⟩ :=
      trimFraction_of_rem_pos (a % bnBase d) d hr hrlt
    rw [hTeq, if_neg hT0]
    show toTokenMinimalUnit _ d = _
    have hFne : T.map digitChar ≠ [] := by simp [hTne]
    have hFd : ∀ c ∈ T.map digitChar, c.isDigit = true := by
      intro c hc
      obtain ⟨x, hx, rfl⟩ := List.mem_map.mp hc
      exact digitChar_isDigit (hTlt x hx)
    have hFlen : (T.map digitChar).length ≤ d := by simpa using hTlen
    rw [toTokenMinimalUnit_digits_dot _ _ hWne hFne hWd hFd d hFlen, hWval]
    have hfrac : digitsVal ((T.map digitChar ++
        List.replicate (d - (T.map digitChar).length) '0').map charToDigit) =
        a % bnBase d := by
      rw [List.map_append, map_charToDigit_map_digitChar hTlt, List.map_replicate]
      rw [show charToDigit '0' = 0 from rfl, List.length_map]
      rw [digitsVal_append_replicate_zero, hTval]
    rw [hfrac]
    have hsum : a / bnBase d * bnBase d + a % bnBase d = a := by
      conv_rhs => rw [← Nat.div_add_mod a (bnBase d)]
      ring
    rw [hsum]

/-- C1 counterexample: at decimal count `0` the round-trip fails for every
amount — `fromTokenMinimalUnit 5 0` returns `"5"`, but
`toTokenMinimalUnit "5" 0` throws `TooManyDecimalPlacesError`, because the
absent fractional part is defaulted to `"0"` (length 1) before the
length-vs-decimals check. -/
theorem fromToken_toToken_roundTrip_d0_fails :
    ¬ ((fromTokenMinimalUnit ((5 : Nat) : Int) 0).bind (fun s => toTokenMinimalUnit s 0) =
      Except.ok ((5 : Nat) : Int)) := by decide

/-- C1 witness: the round-trip theorem applied at `a = 105`, `d = 2`
(the string in the middle is `"1.05"`). -/
theorem fromToken_toToken_roundTrip_witness :
    (fromTokenMinimalUnit ((105 : Nat) : Int) 2).bind (fun s => toTokenMinimalUnit s 2) =
      Except.ok ((105 : Nat) : Int) :=
  fromToken_toToken_roundTrip 105 2 (by norm_num) (by norm_num)

/-- C2: on a negative amount `fromTokenMinimalUnit` does not return the
'-'-prefixed string of the positive amount: `fromTokenMinimalUnit 1 0`
returns `"1"`, but `fromTokenMinimalUnit (-1) 0` reaches
`minimal.mul(negative)` with the boolean `true` and throws a `RangeError`
inside `bn.js` (`new Array(NaN)`). -/
theorem fromTokenMinimalUnit_negative_throws :
    fromTokenMinimalUnit (-1) 0 = Except.error JsErr.rangeError ∧
      fromTokenMinimalUnit 1 0 = Except.ok "1" := by decide

/-- C3: `toTokenMinimalUnit` has a failure mode beyond the three
numeral-parsing errors: on the well-formed negative numeral `"-1"` it
reaches `tokenMinimal.mul(negative)` with the boolean `true` and throws a
`RangeError` inside `bn.js`, while `"1"` converts normally. -/
theorem toTokenMinimalUnit_negative_throws :
    toTokenMinimalUnit "-1" 1 = Except.error JsErr.rangeError ∧
      toTokenMinimalUnit "1" 1 = Except.ok 10 := by decide

/-- C8 counterexample: at decimal count `21` the source's base is
`toBN(Math.pow(10, 21).toString()) = BN("1e+21")`, which bn.js misparses
as `23521`; `fromTokenMinimalUnit 23521 21` therefore returns `"1"` — no
decimal point and no fractional part — although `23521 mod 10^21` is
non-zero, so the claimed mod-`10^d` characterization of the fraction
fails at this concrete input. -/
theorem fromTokenMinimalUnit_pow_base_misparse :
    fromTokenMinimalUnit 23521 21 = Except.ok "1" ∧
      (23521 : Nat) % 10 ^ 21 ≠ 0 := by decide

/-- C8 (amended): for every non-negative amount `a` and every decimal
count `d ≤ 20` — the region where the base
`toBN(Math.pow(10, decimals).toString())` is exactly `10 ^ d` — the string
built by `fromTokenMinimalUnit` is the whole part followed, when
`a mod 10^d` is non-zero, by `'.'` and a fraction `T` that is exactly the
`d`-digit zero-left-padded remainder with its trailing zeros stripped
(`T` ends in a non-zero digit and
`digitsVal T * 10^(d - length T) = a mod 10^d`); the fraction and the
decimal point are omitted entirely when the remainder is zero; in
particular `fromTokenMinimalUnit 1234567890000000000 18 = "1.23456789"`.
(At `d = 21` the misparsed base breaks the characterization — see the
counterexample theorem.) -/
theorem fromTokenMinimalUnit_fraction_spec :
    (∀ (a d : Nat), d ≤ 20 → ∃ s : String,
      fromTokenMinimalUnit (a : Int) d = Except.ok s ∧
        ((a % 10 ^ d = 0 ∧ s.data = (natDigits (a / 10 ^ d)).map digitChar) ∨
         (a % 10 ^ d ≠ 0 ∧ ∃ T : List Nat, T ≠ [] ∧ T.getLast? ≠ some 0 ∧ T.length ≤ d ∧
            (∀ x ∈ T, x < 10) ∧ digitsVal T * 10 ^ (d - T.length) = a % 10 ^ d ∧
            s.data = (natDigits (a / 10 ^ d)).map digitChar ++ '.' :: T.map digitChar))) ∧
    fromTokenMinimalUnit 1234567890000000000 18 = Except.ok "1.23456789" := by
  constructor
  · intro a d hd20
    rw [fromTokenMinimalUnit_eval, bnBase_pow d hd20]
    by_cases hr : a % 10 ^ d = 0
    · rw [hr, trimFraction_zero, if_pos rfl, List.append_nil]
      exact ⟨_, rfl, Or.inl ⟨rfl, rfl⟩⟩
    · have hrlt : a % 10 ^ d < 10 ^ d :=
        Nat.mod_lt a (Nat.pos_pow_of_pos d (by norm_num))
      obtain ⟨T, hTeq, hT0, hTne, hTlast, hTlt, hTlen, hTpad, hTval⟩ :=
        trimFraction_of_rem_pos (a % 10 ^ d) d hr hrlt
      rw [hTeq, if_neg hT0]
      exact ⟨_, rfl, Or.inr ⟨hr, T, hTne, hTlast, hTlen, hTlt, hTval, rfl⟩⟩
  · decide

/-- C8 witness: the characterization applied at `a = 105`, `d = 2`
(`fromTokenMinimalUnit 105 2 = "1.05"`, fraction digits `[0, 5]`). -/
theorem fromTokenMinimalUnit_fraction_spec_witness :
    ∃ s : String,
      fromTokenMinimalUnit ((105 : Nat) : Int) 2 = Except.ok s ∧
        (((105 : Nat) % 10 ^ 2 = 0 ∧
            s.data = (natDigits ((105 : Nat) / 10 ^ 2)).map digitChar) ∨
         ((105 : Nat) % 10 ^ 2 ≠ 0 ∧ ∃ T : List Nat, T ≠ [] ∧ T.getLast? ≠ some 0 ∧
            T.length ≤ 2 ∧ (∀ x ∈ T, x < 10) ∧
            digitsVal T * 10 ^ (2 - T.length) = (105 : Nat) % 10 ^ 2 ∧
            s.data = (natDigits ((105 : Nat) / 10 ^ 2)).map digitChar ++
              '.' :: T.map digitChar)) :=
  fromTokenMinimalUnit_fraction_spec.1 105 2 (by norm_num)

/-- A JavaScript number: NaN or an exact value.  Finite doubles are
embedded as exact rationals — adequate for the sentinel and
NaN-normalization properties, which do not depend on float rounding. -/
inductive JsNumber : Type
  | nan
  | val (q : ℚ)
  deriving DecidableEq, Repr

/-- A JavaScript value as it can reach the fiat-conversion functions:
`undefined`, `null`, a number, or a `BN` instance (embedded as `Int`). -/
inductive JsValue : Type
  | undef
  | null
  | num (x : JsNumber)
  | bn (v : Int)
  deriving DecidableEq, Repr

/-- Source `isBN(value)` (lines 162–164): `BN.isBN`, a type predicate. -/
def isBN : JsValue → Bool
  | .bn _ => true
  | _ => false

/-- JavaScript falsiness of an embedded value (the `!wei` test): undefined,
null, `0` and NaN are falsy; a `BN` is an object, and objects are always
truthy. -/
def jsFalsy : JsValue → Bool
  | .undef => true
  | .null => true
  | .num .nan => true
  | .num (.val q) => q == 0
  | .bn _ => false

/-- JavaScript `ToNumber` coercion as applied by `*`: `undefined` is NaN,
`null` is `0`, a `BN` converts through its decimal string. -/
def jsToNumber : JsValue → JsNumber
  | .undef => .nan
  | .null => .val 0
  | .num x => x
  | .bn v => .val v

/-- JavaScript `*` on numbers: NaN propagates. -/
def jsMul : JsNumber → JsNumber → JsNumber
  | .nan, _ => .nan
  | .val a, b =>
      match b with
      | .nan => .nan
      | .val c => .val (a * c)

/-- JavaScript `Math.round`: round half up (toward +∞); NaN propagates. -/
def jsRound : JsNumber → JsNumber
  | .nan => .nan
  | .val q => .val ((Int.floor (q + 1 / 2) : ℤ) : ℚ)

/-- Division of a JavaScript number by the constant `base = 10 ^
decimalsToShow` (never zero); NaN propagates. -/
def jsDivQ : JsNumber → ℚ → JsNumber
  | .nan, _ => .nan
  | .val a, b => .val (a / b)

/-- JavaScript `isNaN` on a number. -/
def jsIsNaN : JsNumber → Bool
  | .nan => true
  | .val _ => false

/-- Template-literal rendering of a number.  Exact for NaN and for integer
values (the only values the verified sentinel properties observe); a
non-integral value is rendered as `num/den`, standing in for the decimal
float rendering that no claim inspects. -/
def jsNumberToString : JsNumber → String
  | .nan => "NaN"
  | .val q => if q.den = 1 then toString q.num else toString q.num ++ "/" ++ toString q.den

/-- Source `fromWei(value = 0, unit = 'ether')` (lines 25–27), i.e.
`ethjs-unit`'s `fromWei`, as reached from `weiToFiatNumber`: `undefined`
takes the default parameter `0`; `null` throws a `TypeError` inside
`number-to-bn` (property access on `null`); a NaN or non-integral number
fails `number-to-bn`'s integer regex; a `BN` or integer converts exactly.
The result is the exact value `wei / 10^18` (the decimal string the source
produces, as later re-consumed by arithmetic). -/
def fromWei : JsValue → Except JsErr ℚ
  | .undef => .ok 0
  | .null => .error .typeError
  | .num .nan => .error .invalidNumberValue
  | .num (.val q) => if q.den = 1 then .ok (q / 10 ^ 18) else .error .invalidNumberValue
  | .bn v => .ok ((v : ℚ) / 10 ^ 18)

/-- Rounding-and-guard core of `weiToFiatNumber` (lines 232–238):
`parseFloat(Math.round(eth * conversionRate * base) / base)` with a NaN
result replaced by `0.0` (`parseFloat` of a number is the identity). -/
def weiToFiatNumberCore (ethQ : ℚ) (conversionRate : JsValue) (decimalsToShow : Nat) : JsNumber :=
  let base : ℚ := 10 ^ decimalsToShow
  let value := jsDivQ (jsRound (jsMul (jsMul (.val ethQ) (jsToNumber conversionRate))
    (.val base))) base
  if jsIsNaN value = true then .val 0 else value

/-- Source `weiToFiatNumber(wei, conversionRate, decimalsToShow = 5)`
(lines 232–238). -/
def weiToFiatNumber (wei conversionRate : JsValue) (decimalsToShow : Nat := 5) :
    Except JsErr JsNumber :=
  match fromWei wei with
  | .error e => .error e
  | .ok ethQ => .ok (weiToFiatNumberCore ethQ conversionRate decimalsToShow)

/-- Source `weiToFiat(wei, conversionRate, currencyCode)` (lines 216–222):
`if (!wei || !isBN(wei)) return` the `"0.00 <code>"` sentinel, else format
`weiToFiatNumber`'s value.  (The error arm is unreachable: the guard
admits only a `BN`, and `fromWei` succeeds on every `BN`.) -/
def weiToFiat (wei conversionRate : JsValue) (currencyCode : String) : String :=
  if jsFalsy wei = true ∨ isBN wei = false then "0.00 " ++ currencyCode
  else
    match weiToFiatNumber wei conversionRate with
    | .ok value => jsNumberToString value ++ " " ++ currencyCode
    | .error _ => ""

/-- Source `balanceToFiatNumber(balance, conversionRate, exchangeRate,
decimalsToShow = 5)` (lines 266–271):
`parseFloat(Math.round(balance * conversionRate * exchangeRate * base) /
base)` with a NaN result replaced by `0.0`. -/
def balanceToFiatNumber (balance conversionRate exchangeRate : JsValue)
    (decimalsToShow : Nat := 5) : JsNumber :=
  let base : ℚ := 10 ^ decimalsToShow
  let fiatFixed := jsDivQ (jsRound (jsMul (jsMul (jsMul (jsToNumber balance)
    (jsToNumber conversionRate)) (jsToNumber exchangeRate)) (.val base))) base
  if jsIsNaN fiatFixed = true then .val 0 else fiatFixed

/-- `String.prototype.toUpperCase`, character-wise (exact on the ASCII
currency codes in play), embedded directly over the character list. -/
def jsToUpper (s : String) : String := String.mk (s.data.map Char.toUpper)

/-- Source `balanceToFiat(balance, conversionRate, exchangeRate,
currencyCode)` (lines 249–255): an `undefined`/`null` balance or exchange
rate short-circuits to `undefined` (embedded as `none`); otherwise the
result is `` `${fiatFixed} ${currencyCode.toUpperCase()}` ``. -/
def balanceToFiat (balance conversionRate exchangeRate : JsValue)
    (currencyCode : String) : Option String :=
  if balance = JsValue.undef ∨ balance = JsValue.null ∨
      exchangeRate = JsValue.undef ∨ exchangeRate = JsValue.null then none
  else some (jsNumberToString (balanceToFiatNumber balance conversionRate exchangeRate) ++
    " " ++ jsToUpper currencyCode)


/-- C4: whenever the wei argument is not a recognized arbitrary-precision
integer (`BN` instance) — in particular when it is missing
(`undefined`/`null`) — `weiToFiat` returns exactly `"0.00 "` followed by
the currency code, performing no arithmetic. -/
theorem weiToFiat_sentinel (wei conversionRate : JsValue) (currencyCode : String)
    (h : isBN wei = false) :
    weiToFiat wei conversionRate currencyCode = "0.00 " ++ currencyCode := by
  rw [weiToFiat, if_pos (Or.inr h)]

/-- C4 witness: `weiToFiat undefined 300 "USD" = "0.00 USD"`. -/
theorem weiToFiat_sentinel_witness :
    weiToFiat JsValue.undef (JsValue.num (JsNumber.val 300)) "USD" = "0.00 USD" := by
  rw [weiToFiat_sentinel JsValue.undef (JsValue.num (JsNumber.val 300)) "USD" rfl]
  rfl

/-- C5: whenever balance or exchangeRate is `null` or `undefined`,
`balanceToFiat` yields the absent-value marker (JavaScript `undefined`,
embedded as `none`), never a formatted zero string. -/
theorem balanceToFiat_absent (balance conversionRate exchangeRate : JsValue)
    (currencyCode : String)
    (h : balance = JsValue.undef ∨ balance = JsValue.null ∨
      exchangeRate = JsValue.undef ∨ exchangeRate = JsValue.null) :
    balanceToFiat balance conversionRate exchangeRate currencyCode = none := by
  rw [balanceToFiat, if_pos h]

/-- C5 witness: `balanceToFiat undefined 300 0.01 "usd"` is the absent
marker, not a string. -/
theorem balanceToFiat_absent_witness :
    balanceToFiat JsValue.undef (JsValue.num (JsNumber.val 300))
      (JsValue.num (JsNumber.val (1 / 100))) "usd" = none :=
  balanceToFiat_absent JsValue.undef (JsValue.num (JsNumber.val 300))
    (JsValue.num (JsNumber.val (1 / 100))) "usd" (Or.inl rfl)

/-- Value of "the result is not NaN" over the fallible embedding of
`weiToFiatNumber`. -/
def exceptNotNaN : Except JsErr JsNumber → Bool
  | .error _ => true
  | .ok v => !(jsIsNaN v)

theorem exceptNotNaN_guard (v : JsNumber) :
    exceptNotNaN (Except.ok (if jsIsNaN v = true then JsNumber.val 0 else v)) = true := by
  cases v with
  | nan => rfl
  | val x => rfl

theorem jsIsNaN_guard (v : JsNumber) :
    jsIsNaN (if jsIsNaN v = true then JsNumber.val 0 else v) = false := by
  cases v with
  | nan => rfl
  | val x => rfl

/-- C6: the numeric results of `weiToFiatNumber` and `balanceToFiatNumber`
are never NaN — a not-a-number rounding result is replaced by `0.0` before
being returned (when `weiToFiatNumber` throws there is no numeric
result). -/
theorem fiatNumber_never_nan :
    ∀ (w r b c e : JsValue) (d₁ d₂ : Nat),
      exceptNotNaN (weiToFiatNumber w r d₁) = true ∧
      jsIsNaN (balanceToFiatNumber b c e d₂) = false := by
  intro w r b c e d₁ d₂
  constructor
  · rcases hfw : fromWei w with e1 | q
    · simp only [weiToFiatNumber, hfw]
      rfl
    · simp only [weiToFiatNumber, hfw]
      exact exceptNotNaN_guard _
  · exact jsIsNaN_guard _

theorem jsRound_zero : jsRound (JsNumber.val 0) = JsNumber.val 0 := by
  have hfl : ⌊(0 : ℚ) + 1 / 2⌋ = (0 : ℤ) := by
    rw [Int.floor_eq_iff]
    norm_num
  simp only [jsRound, hfl, Int.cast_zero]

theorem balanceToFiatNumber_rate_null (b e : JsValue) (d : Nat) :
    balanceToFiatNumber b JsValue.null e d = JsNumber.val 0 := by
  simp only [balanceToFiatNumber]
  cases hb : jsToNumber b with
  | nan => rfl
  | val x =>
      have hx0 : jsMul (JsNumber.val x) (jsToNumber JsValue.null) = JsNumber.val 0 := by
        simp [jsToNumber, jsMul]
      rw [hx0]
      cases he : jsToNumber e with
      | nan => rfl
      | val y =>
          have hy0 : jsMul (JsNumber.val 0) (JsNumber.val y) = JsNumber.val 0 := by
            simp [jsMul]
          rw [hy0]
          have hb0 : jsMul (JsNumber.val 0) (JsNumber.val ((10 : ℚ) ^ d)) = JsNumber.val 0 := by
            simp [jsMul]
          rw [hb0, jsRound_zero]
          have hdiv : jsDivQ (JsNumber.val 0) ((10 : ℚ) ^ d) = JsNumber.val 0 := by
            simp [jsDivQ]
          rw [hdiv]
          rfl

theorem balanceToFiatNumber_rate_undef (b e : JsValue) (d : Nat) :
    balanceToFiatNumber b JsValue.undef e d = JsNumber.val 0 := by
  simp only [balanceToFiatNumber]
  cases hb : jsToNumber b with
  | nan => rfl
  | val x => rfl

theorem jsNumberToString_zero : jsNumberToString (JsNumber.val 0) = "0" := by
  simp only [jsNumberToString, Rat.den_ofNat, if_pos rfl, Rat.num_ofNat]
  rfl

/-- C9: with a present balance and exchange rate, an absent (`null` or
`undefined`) conversionRate does NOT yield the absent marker:
`balanceToFiat` computes through (`null` coerces to `0`; `undefined`
yields NaN, which the guard turns into `0.0`) and returns `"0 "` followed
by the upper-cased currency code. -/
theorem balanceToFiat_rate_absent (balance exchangeRate : JsValue) (currencyCode : String)
    (hb1 : balance ≠ JsValue.undef) (hb2 : balance ≠ JsValue.null)
    (he1 : exchangeRate ≠ JsValue.undef) (he2 : exchangeRate ≠ JsValue.null) :
    balanceToFiat balance JsValue.null exchangeRate currencyCode =
        some ("0 " ++ jsToUpper currencyCode) ∧
      balanceToFiat balance JsValue.undef exchangeRate currencyCode =
        some ("0 " ++ jsToUpper currencyCode) := by
  have hguard : ¬ (balance = JsValue.undef ∨ balance = JsValue.null ∨
      exchangeRate = JsValue.undef ∨ exchangeRate = JsValue.null) := by
    simp [hb1, hb2, he1, he2]
  constructor
  · rw [balanceToFiat, if_neg hguard, balanceToFiatNumber_rate_null, jsNumberToString_zero]
    rfl
  · rw [balanceToFiat, if_neg hguard, balanceToFiatNumber_rate_undef, jsNumberToString_zero]
    rfl

/-- C9 witness: `balanceToFiat 1 null 0.01 "usd" = "0 USD"`. -/
theorem balanceToFiat_rate_absent_witness :
    balanceToFiat (JsValue.num (JsNumber.val 1)) JsValue.null
      (JsValue.num (JsNumber.val (1 / 100))) "usd" = some "0 USD" := by
  have h := (balanceToFiat_rate_absent (JsValue.num (JsNumber.val 1))
    (JsValue.num (JsNumber.val (1 / 100))) "usd"
    (by decide) (by decide) (by decide) (by decide)).1
  rw [h]
  rfl

/-- Tail of the first regex alternative after the maximal digit prefix:
a dot followed by zero or more digits. -/
def dotThenDigits : List Char → Bool
  | [] => false
  | c :: t => (c == '.') && t.all Char.isDigit

/-- First alternative `\d+\.?\d*` of the source regex, anchored: a
non-empty digit prefix and then either nothing or a dot and more digits.
(The greedy `\d+` taking the maximal digit prefix is equivalent to the
backtracking search: `\.?` can only consume a dot and `\d*` only
digits.) -/
def decimalAlt1 (l : List Char) : Bool :=
  !(l.takeWhile Char.isDigit).isEmpty &&
    ((l.dropWhile Char.isDigit).isEmpty || dotThenDigits (l.dropWhile Char.isDigit))

/-- Second alternative `\.\d+`, anchored: a dot and one or more digits. -/
def decimalAlt2 : List Char → Bool
  | [] => false
  | c :: t => (c == '.') && (!t.isEmpty && t.all Char.isDigit)

/-- Source `isDecimal(value)` (lines 172–174): the anchored regex test
`/^(\d+\.?\d*|\.\d+)$/.test(value)`. -/
def isDecimal (value : String) : Bool :=
  decimalAlt1 value.data || decimalAlt2 value.data

theorem isDecimal_chars {s : String} (h : isDecimal s = true) :
    ∀ c ∈ s.data, c.isDigit = true ∨ c = '.' := by
  intro c hc
  rw [isDecimal, Bool.or_eq_true] at h
  rcases h with h | h
  · rw [decimalAlt1, Bool.and_eq_true] at h
    obtain ⟨h1, h2⟩ := h
    have hsplit := List.takeWhile_append_dropWhile Char.isDigit s.data
    rw [← hsplit] at hc
    rcases List.mem_append.mp hc with hc | hc
    · exact Or.inl (List.mem_takeWhile_imp hc)
    · cases hdw : s.data.dropWhile Char.isDigit with
      | nil =>
          rw [hdw] at hc
          simp at hc
      | cons d t =>
          rw [hdw] at hc h2
          rcases Bool.or_eq_true _ _ |>.mp h2 with h2 | h2
          · simp at h2
          · simp only [dotThenDigits, Bool.and_eq_true] at h2
            obtain ⟨hd, ht⟩ := h2
            rcases List.mem_cons.mp hc with hc | hc
            · subst hc
              exact Or.inr (by simpa using hd)
            · exact Or.inl (List.all_eq_true.mp ht c hc)
  · cases hs : s.data with
    | nil =>
        rw [hs] at hc
        simp at hc
    | cons d t =>
        rw [hs] at hc h
        simp only [decimalAlt2, Bool.and_eq_true] at h
        obtain ⟨hd, _, ht⟩ := h
        rcases List.mem_cons.mp hc with hc | hc
        · subst hc
          exact Or.inr (by simpa using hd)
        · exact Or.inl (List.all_eq_true.mp ht c hc)

/-- C7 counterexample: the source regex accepts `"1."` — `\d+` matches
`"1"`, `\.?` the dot and `\d*` the empty tail — where the claim requires
`isDecimal "1." = false`. -/
theorem isDecimal_trailing_dot : ¬ (isDecimal "1." = false) := by decide

/-- C7 (amended): `isDecimal` is `true` on `"0.5"`, `false` on `"--1"`,
`true` on `".5"`, and — unlike the claim — `true` on `"1."`; it accepts no
sign and no scientific notation: any string containing `'-'`, `'+'`, `'e'`
or `'E'` is rejected. -/
theorem isDecimal_spec :
    isDecimal "0.5" = true ∧ isDecimal "--1" = false ∧ isDecimal ".5" = true ∧
      isDecimal "1." = true ∧
      ∀ s : String, ('-' ∈ s.data ∨ '+' ∈ s.data ∨ 'e' ∈ s.data ∨ 'E' ∈ s.data) →
        isDecimal s = false := by
  refine ⟨by decide, by decide, by decide, by decide, ?_⟩
  intro s hbad
  cases hdec : isDecimal s with
  | false => rfl
  | true =>
      exfalso
      have hchars := isDecimal_chars hdec
      rcases hbad with hb | hb | hb | hb <;>
        rcases hchars _ hb with hd | hd <;> revert hd <;> decide

/-- C7 witness: the sign-rejection part of the predicate theorem applied
at `"-1"`. -/
theorem isDecimal_spec_witness : isDecimal "-1" = false :=
  isDecimal_spec.2.2.2.2 "-1" (Or.inl (by decide))

end NumberUtils

namespace Settings

/-- The two persisted settings (the `initialState` shape of
`app/reducers/settings/index.js`); field values are JavaScript values,
with `none` embedding `undefined` (a dispatched action may omit its
payload field). -/
structure SettingsState where
  searchEngine : Option String
  lockTime : Option Int
  deriving DecidableEq, Repr

/-- A partial settings object carried by a rehydration payload: an absent
field (outer `none`) leaves the current value in place under the spread
merge `{ ...state, ...action.payload.settings }`. -/
structure SettingsPatch where
  searchEngine : Option (Option String)
  lockTime : Option (Option Int)
  deriving DecidableEq, Repr

/-- The `redux-persist` rehydration payload: an optional `settings`
slice. -/
structure RehydratePayload where
  settings : Option SettingsPatch
  deriving DecidableEq, Repr

/-- A dispatched redux action as the settings reducer reads it: the `type`
tag and the fields the three handled actions consult. -/
structure ReduxAction where
  type : String
  searchEngine : Option String
  lockTime : Option Int
  payload : Option RehydratePayload
  deriving DecidableEq, Repr

/-- The `REHYDRATE` action type constant of `redux-persist`. -/
def REHYDRATE : String := "persist/REHYDRATE"

/-- Source `settingsReducer` (lines 9–29 of
`app/reducers/settings/index.js`): `REHYDRATE` shallow-merges a present
settings slice, `SET_SEARCH_ENGINE` and `SET_LOCK_TIME` replace one field
each, anything else returns the state unchanged.  (The source's default
argument `state = initialState` only fills an omitted argument and is not
consulted by any claim.) -/
def settingsReducer (state : SettingsState) (action : ReduxAction) : SettingsState :=
  if action.type = REHYDRATE then
    match action.payload with
    | some p =>
        match p.settings with
        | some patch =>
            { searchEngine := patch.searchEngine.getD state.searchEngine,
              lockTime := patch.lockTime.getD state.lockTime }
        | none => state
    | none => state
  else if action.type = "SET_SEARCH_ENGINE" then
    { state with searchEngine := action.searchEngine }
  else if action.type = "SET_LOCK_TIME" then
    { state with lockTime := action.lockTime }
  else state

/-- C10: frame of the settings reducer — a `SET_SEARCH_ENGINE` action
leaves `lockTime` unchanged, a `SET_LOCK_TIME` action leaves
`searchEngine` unchanged, and an action whose type is none of `REHYDRATE`,
`SET_SEARCH_ENGINE`, `SET_LOCK_TIME` returns the input state unchanged. -/
theorem settingsReducer_frame (state : SettingsState) (action : ReduxAction) :
    (action.type = "SET_SEARCH_ENGINE" →
        (settingsReducer state action).lockTime = state.lockTime) ∧
      (action.type = "SET_LOCK_TIME" →
        (settingsReducer state action).searchEngine = state.searchEngine) ∧
      (action.type ≠ REHYDRATE → action.type ≠ "SET_SEARCH_ENGINE" →
        action.type ≠ "SET_LOCK_TIME" → settingsReducer state action = state) := by
  refine ⟨?_, ?_, ?_⟩
  · intro ht
    rw [settingsReducer, if_neg (by rw [ht]; decide), if_pos ht]
  · intro ht
    rw [settingsReducer, if_neg (by rw [ht]; decide), if_neg (by rw [ht]; decide), if_pos ht]
  · intro h1 h2 h3
    rw [settingsReducer, if_neg h1, if_neg h2, if_neg h3]

/-- C10 witness: the frame theorem applied at a concrete state and three
concrete actions. -/
theorem settingsReducer_frame_witness :
    (settingsReducer ⟨some "ddg", some 30⟩
        ⟨"SET_SEARCH_ENGINE", some "google", none, none⟩).lockTime = some 30 ∧
      (settingsReducer ⟨some "ddg", some 30⟩
        ⟨"SET_LOCK_TIME", none, some 60, none⟩).searchEngine = some "ddg" ∧
      settingsReducer ⟨some "ddg", some 30⟩ ⟨"LOGOUT", none, none, none⟩ =
        ⟨some "ddg", some 30⟩ :=
  ⟨(settingsReducer_frame _ _).1 rfl,
   (settingsReducer_frame _ _).2.1 rfl,
   (settingsReducer_frame _ _).2.2 (by decide) (by decide) (by decide)⟩

end Settings
